import Mathlib

/-!
# Verification of the metronome beat-scheduling engine

Shallow embedding of `src/src/App.tsx` (the `Metronome` React component).
JavaScript numbers are modelled as exact rationals (`ℚ`); the spec's own data
model describes tempo as a "positive rational number", and all the timing
arithmetic here (`60 / bpm`, `+= secondsPerBeat`) is embedded exactly.

The scheduler's catch-up `while` loop
(`while (nextNoteTimeRef.current < currentTime + scheduleAheadTime) { ... }`)
is embedded as a fuel-indexed structural recursion `schedulerLoopF` together
with the explicit iteration count `iterCount`; the theorems below prove that
any fuel at least `iterCount` yields the same result (the loop exits by its
condition, not by fuel), so `scheduler := schedulerLoopF (iterCount ...)` is
the exact value of the unbounded source loop whenever `0 < bpm` (which the
component guarantees: `handleBpmChange` clamps to `[40, 240]` and the
initial value is 120).

React semantics used by the embedding (framework behaviour, not repository
code): the start/stop effect has dependency list `[isPlaying, bpm,
beatsPerMeasure]`, so it re-runs (cleanup of the previous invocation, then
the body) exactly when one of those three values changes; a `setState` call
with an identical value bails out and triggers no re-render and no effect
re-run; the two state updates inside the time-signature `onClick` are
batched into one render; the ref-sync effects for `volume` and
`voiceEnabled` (source lines 29–35) are modelled as running atomically with
the setter.  Timer callbacks and user events are interleaved arbitrarily;
each carries the audio-clock value `now` at which it runs.
-/

namespace Metronome

/-- Constant `scheduleAheadTime = 0.1` from `scheduler` (source line 89). -/
def scheduleAheadTime : ℚ := 1 / 10

/-- The poll interval in milliseconds: `window.setTimeout(scheduler, 25)`
(source line 108). -/
def pollIntervalMs : ℕ := 25

/-- One audible pulse as produced by `playTick`: an oscillator configured and
started against the audio clock. -/
structure Pulse where
  frequency : ℚ
  gain : ℚ
  startTime : ℚ
  stopTime : ℚ
  deriving DecidableEq, Repr

/-- Function `playTick(isAccent)` (source lines 48–64): frequency 1000 for the accent
beat and 800 otherwise, gain read from `volumeRef.current` at emission time,
started at `audioContext.currentTime` and stopped 0.05 s later. -/
def playTick (currentTime : ℚ) (isAccent : Bool) (volumeRef : ℚ) : Pulse :=
  { frequency := if isAccent then 1000 else 800
    gain := volumeRef
    startTime := currentTime
    stopTime := currentTime + 5 / 100 }

/-- One speech request as built by `speakBeatNumber`. -/
structure Utterance where
  text : ℕ
  rate : ℚ
  volume : ℚ
  pitch : ℚ
  deriving DecidableEq, Repr

/-- Function `speakBeatNumber(beatNumber)` (source lines 67–83): no-op when
`voiceEnabledRef.current` is false; otherwise queues an utterance of the
1-based beat number at rate 2.0, volume `volumeRef.current`, and pitch 1.3
for beat 0 versus 1.0 otherwise. -/
def speakBeatNumber (voiceEnabledRef : Bool) (volumeRef : ℚ) (beatNumber : ℕ) :
    Option Utterance :=
  if !voiceEnabledRef then none
  else some { text := beatNumber + 1
              rate := 2
              volume := volumeRef
              pitch := if beatNumber = 0 then 13 / 10 else 1 }

/-- One emitted beat: the index and accent flag, the cursor deadline
(`nextNoteTimeRef.current` at the top of the loop iteration that emitted it),
and the pulse and optional speech request issued for it. -/
structure BeatEvent where
  index : ℕ
  accent : Bool
  deadline : ℚ
  pulse : Pulse
  speech : Option Utterance
  deriving DecidableEq, Repr

/-- Number of iterations the catch-up `while` loop performs from deadline
`nextNoteTime` at clock `currentTime` (for `0 < bpm`): the least `n` with
`nextNoteTime + n * (60 / bpm) ≥ currentTime + scheduleAheadTime`, i.e.
`⌈(currentTime + 0.1 − nextNoteTime) · bpm / 60⌉`, clipped to `ℕ`. -/
def iterCount (currentTime bpm nextNoteTime : ℚ) : ℕ :=
  (⌈(currentTime + scheduleAheadTime - nextNoteTime) * bpm / 60⌉).toNat

/-- Fuel-indexed embedding of the body of `scheduler` (source lines 92–106):
while the next-beat deadline is within the look-ahead window, emit the beat
(pulse, speech, published index), advance the index modulo
`beatsPerMeasure`, and advance the deadline by `60 / bpm`.  Returns the
emitted events in order together with the final
`(currentBeatRef, nextNoteTimeRef)` cursor. -/
def schedulerLoopF : ℕ → ℚ → ℚ → ℕ → ℚ → Bool → ℕ → ℚ →
    List BeatEvent × ℕ × ℚ
  | 0, _, _, _, _, _, beat, nextNoteTime => ([], beat, nextNoteTime)
  | fuel + 1, currentTime, bpm, beatsPerMeasure, volumeRef, voiceEnabledRef,
      beat, nextNoteTime =>
    if nextNoteTime < currentTime + scheduleAheadTime then
      let isAccent := beat == 0
      let ev : BeatEvent :=
        { index := beat
          accent := isAccent
          deadline := nextNoteTime
          pulse := playTick currentTime isAccent volumeRef
          speech := speakBeatNumber voiceEnabledRef volumeRef beat }
      let r := schedulerLoopF fuel currentTime bpm beatsPerMeasure volumeRef
        voiceEnabledRef ((beat + 1) % beatsPerMeasure) (nextNoteTime + 60 / bpm)
      (ev :: r.1, r.2)
    else ([], beat, nextNoteTime)

/-- The `scheduler` catch-up loop (source lines 86–109): the fuel-indexed
loop run with exactly the fuel it needs.  `schedulerLoopF_fuel_irrelevant`
(inside `catchup_loop_finite`) shows any larger fuel gives the same value,
so for `0 < bpm` this is the exact result of the unbounded source `while`
loop. -/
def scheduler (currentTime bpm : ℚ) (beatsPerMeasure : ℕ)
    (volumeRef : ℚ) (voiceEnabledRef : Bool) (beat : ℕ) (nextNoteTime : ℚ) :
    List BeatEvent × ℕ × ℚ :=
  schedulerLoopF (iterCount currentTime bpm nextNoteTime) currentTime bpm
    beatsPerMeasure volumeRef voiceEnabledRef beat nextNoteTime

/-- Handler `handleBpmChange` (source lines 138–141): the value stored by `setBpm`
is `Math.max(40, Math.min(240, newBpm))`. -/
def handleBpmChange (newBpm : ℚ) : ℚ := max 40 (min 240 newBpm)

/-- The full `Metronome` component state: the six `useState` cells and the
mutable refs (source lines 14–26), plus the pending-speech queue held by the
external `speechSynthesis` backend (flushed as one operation by
`speechSynthesis.cancel()`).  `timerPending` models whether a
`setTimeout(scheduler, 25)` callback is currently armed
(`timerIdRef.current !== null`). -/
structure MetronomeState where
  bpm : ℚ
  isPlaying : Bool
  currentBeat : ℕ
  beatsPerMeasure : ℕ
  volume : ℚ
  voiceEnabled : Bool
  nextNoteTimeRef : ℚ
  timerPending : Bool
  currentBeatRef : ℕ
  volumeRef : ℚ
  voiceEnabledRef : Bool
  speechQueue : List Utterance
  deriving DecidableEq, Repr

/-- The component's initial state (source lines 14–26). -/
def initState : MetronomeState where
  bpm := 120
  isPlaying := false
  currentBeat := 0
  beatsPerMeasure := 4
  volume := 1 / 2
  voiceEnabled := false
  nextNoteTimeRef := 0
  timerPending := false
  currentBeatRef := 0
  volumeRef := 1 / 2
  voiceEnabledRef := false
  speechQueue := []

/-- One invocation of `scheduler` at component level: runs the catch-up loop
against the current parameters and refs, publishes the index of each emitted
beat via `setCurrentBeat` (the last write wins; no emission leaves the
published index unchanged), appends the speech requests to the backend
queue, stores the final cursor in the refs, and re-arms the poll timer
(source line 108). -/
def schedulerCall (now : ℚ) (s : MetronomeState) :
    MetronomeState × List BeatEvent :=
  let r := scheduler now s.bpm s.beatsPerMeasure s.volumeRef s.voiceEnabledRef
    s.currentBeatRef s.nextNoteTimeRef
  ({ s with
      currentBeatRef := r.2.1
      nextNoteTimeRef := r.2.2
      currentBeat := (r.1.getLast?).elim s.currentBeat BeatEvent.index
      speechQueue := s.speechQueue ++ r.1.filterMap BeatEvent.speech
      timerPending := true }, r.1)

/-- One run of the start/stop effect (source lines 112–136): first the
cleanup of the previous invocation (clear the pending timer, cancel queued
speech — source lines 130–135), then the body: when playing, reset the
cursor to `(0, now)`, publish beat 0, and call `scheduler()` synchronously;
when stopped, clear the timer, cancel queued speech, and reset the
published index and the beat ref to 0. -/
def runEffect (now : ℚ) (s : MetronomeState) :
    MetronomeState × List BeatEvent :=
  let s := { s with timerPending := false, speechQueue := [] }
  if s.isPlaying then
    schedulerCall now
      { s with nextNoteTimeRef := now, currentBeatRef := 0, currentBeat := 0 }
  else
    ({ s with currentBeat := 0, currentBeatRef := 0 }, [])

/-- The external events the component reacts to, each tagged with the audio
clock value at which it runs: the armed timer firing, the five control
inputs (BPM edit, time-signature button, volume slider, voice toggle,
play/pause button). -/
inductive Action where
  | poll (now : ℚ)
  | setTempoInput (now : ℚ) (newBpm : ℚ)
  | setMeter (now : ℚ) (n : ℕ)
  | setVolume (v : ℚ)
  | setVoiceEnabled (b : Bool)
  | togglePlay (now : ℚ)
  deriving DecidableEq, Repr

/-- One transition of the component.

* `poll`: an armed `setTimeout(scheduler, 25)` callback fires.
* `setTempoInput` (`handleBpmChange`, source lines 138–141): stores the
  clamped BPM; if it differs from the current value the start/stop effect
  re-runs (its dependency list contains `bpm`), otherwise React bails out.
* `setMeter` (time-signature `onClick`, source lines 215–221): stores the
  meter and publishes beat 0 in one batched render; if the meter changed the
  start/stop effect re-runs (its dependency list contains
  `beatsPerMeasure`).
* `setVolume` / `setVoiceEnabled`: stores the value and syncs the ref
  (source lines 29–35); the start/stop effect does not depend on either.
* `togglePlay` (source line 269): flips `isPlaying`, so the start/stop
  effect always re-runs. -/
def step (s : MetronomeState) : Action → MetronomeState × List BeatEvent
  | .poll now =>
      if s.timerPending then schedulerCall now s else (s, [])
  | .setTempoInput now newBpm =>
      let clamped := handleBpmChange newBpm
      if clamped = s.bpm then (s, [])
      else runEffect now { s with bpm := clamped }
  | .setMeter now n =>
      if n = s.beatsPerMeasure then ({ s with currentBeat := 0 }, [])
      else runEffect now { s with beatsPerMeasure := n, currentBeat := 0 }
  | .setVolume v => ({ s with volume := v, volumeRef := v }, [])
  | .setVoiceEnabled b => ({ s with voiceEnabled := b, voiceEnabledRef := b }, [])
  | .togglePlay now => runEffect now { s with isPlaying := !s.isPlaying }

/-- Run a list of actions from a state, collecting all emitted beats in
order. -/
def runActions (s : MetronomeState) :
    List Action → MetronomeState × List BeatEvent
  | [] => (s, [])
  | a :: as =>
      let r := step s a
      let rest := runActions r.1 as
      (rest.1, r.2 ++ rest.2)

/-- The actions the rendered UI can actually deliver: the time-signature row
offers exactly the buttons 2/4 … 6/4 (source line 215). -/
def ValidAction : Action → Prop
  | .setMeter _ n => n = 2 ∨ n = 3 ∨ n = 4 ∨ n = 5 ∨ n = 6
  | _ => True

/-- States of the component reachable from the initial render through UI
events and timer callbacks. -/
inductive Reachable : MetronomeState → Prop where
  | init : Reachable initState
  | next {s : MetronomeState} {a : Action} :
      Reachable s → ValidAction a → Reachable (step s a).1

/-- The initial state with play pressed (a concrete running state, used as
a sample input). -/
def playingState : MetronomeState := { initState with isPlaying := true }

/-- The first beat emitted when play is pressed from the initial state at
clock 0 (a concrete sample event). -/
def firstBeat : BeatEvent :=
  { index := 0
    accent := true
    deadline := 0
    pulse := playTick 0 true (1 / 2)
    speech := none }

/-- The cursor of a running session that started at clock `t0` and has
emitted `n` beats so far: the next-beat index is `n` reduced modulo the
meter and the next-beat deadline is `n` beat intervals past `t0`. -/
def InSession (t0 : ℚ) (n : ℕ) (s : MetronomeState) : Prop :=
  s.isPlaying = true ∧
  s.currentBeatRef = n % s.beatsPerMeasure ∧
  s.nextNoteTimeRef = t0 + n * (60 / s.bpm)

/-- The published beat index and the beat ref both lie below the (positive)
meter. -/
def BeatInv (s : MetronomeState) : Prop :=
  0 < s.beatsPerMeasure ∧ s.currentBeat < s.beatsPerMeasure ∧
  s.currentBeatRef < s.beatsPerMeasure

/-- The stored tempo lies in the clamp range `[40, 240]`. -/
def BpmInv (s : MetronomeState) : Prop := 40 ≤ s.bpm ∧ s.bpm ≤ 240

/-! ## Arithmetic of the iteration count -/

/-- Rewriting the ceiling through the floor, so that concrete instances can
be evaluated. -/
theorem ceil_eq_neg_floor_neg (a : ℚ) : ⌈a⌉ = -⌊-a⌋ := by
  rw [Int.floor_neg, neg_neg]

theorem iterCount_arg_pos {t bpm τ : ℚ} (hb : 0 < bpm)
    (h : τ < t + scheduleAheadTime) :
    0 < (t + scheduleAheadTime - τ) * bpm / 60 := by
  have h1 : 0 < (t + scheduleAheadTime - τ) * bpm := mul_pos (by linarith) hb
  linarith

/-- The loop guard `nextNoteTime < currentTime + 0.1` holds exactly when the
iteration count is positive. -/
theorem iterCount_pos_iff {t bpm τ : ℚ} (hb : 0 < bpm) :
    0 < iterCount t bpm τ ↔ τ < t + scheduleAheadTime := by
  unfold iterCount
  constructor
  · intro h
    by_contra hc
    push_neg at hc
    have h2 : (t + scheduleAheadTime - τ) * bpm ≤ 0 := by nlinarith
    have harg : (t + scheduleAheadTime - τ) * bpm / 60 ≤ 0 := by linarith
    have : ⌈(t + scheduleAheadTime - τ) * bpm / 60⌉ ≤ 0 :=
      Int.ceil_le.mpr (by exact_mod_cast harg)
    omega
  · intro h
    have := Int.ceil_pos.mpr (iterCount_arg_pos hb h)
    omega

/-- Each pass through the loop body decrements the remaining iteration
count by exactly one. -/
theorem iterCount_succ {t bpm τ : ℚ} (hb : 0 < bpm)
    (h : τ < t + scheduleAheadTime) :
    iterCount t bpm (τ + 60 / bpm) = iterCount t bpm τ - 1 := by
  unfold iterCount
  have hbne : bpm ≠ 0 := ne_of_gt hb
  have harg : (t + scheduleAheadTime - (τ + 60 / bpm)) * bpm / 60
      = (t + scheduleAheadTime - τ) * bpm / 60 - 1 := by
    field_simp
    ring
  have hsub : ⌈(t + scheduleAheadTime - τ) * bpm / 60 - 1⌉
      = ⌈(t + scheduleAheadTime - τ) * bpm / 60⌉ - 1 := by
    rw [show ((1:ℚ)) = ((1:ℤ):ℚ) by norm_num, Int.ceil_sub_int]
  rw [harg, hsub]
  have hpos := Int.ceil_pos.mpr (iterCount_arg_pos hb h)
  omega

/-! ## The catch-up loop: fuel irrelevance and structure -/

/-- Any two fuels at least the iteration count give the same loop result:
the source's unbounded `while` loop stops by its own condition after
`iterCount` iterations. -/
theorem schedulerLoopF_congr {bpm : ℚ} (hb : 0 < bpm) :
    ∀ (n k : ℕ) (t : ℚ) (m : ℕ) (vol : ℚ) (voice : Bool) (b : ℕ) (τ : ℚ),
      iterCount t bpm τ ≤ n → iterCount t bpm τ ≤ k →
      schedulerLoopF n t bpm m vol voice b τ
        = schedulerLoopF k t bpm m vol voice b τ := by
  intro n
  induction n with
  | zero =>
    intro k t m vol voice b τ hn hk
    have hcond : ¬ τ < t + scheduleAheadTime := by
      intro hc
      have := (iterCount_pos_iff hb).mpr hc
      omega
    cases k with
    | zero => rfl
    | succ k => simp [schedulerLoopF, hcond]
  | succ n ih =>
    intro k t m vol voice b τ hn hk
    by_cases hcond : τ < t + scheduleAheadTime
    · have hpos : 0 < iterCount t bpm τ := (iterCount_pos_iff hb).mpr hcond
      cases k with
      | zero => omega
      | succ k =>
        simp only [schedulerLoopF, if_pos hcond]
        have hsucc := iterCount_succ hb hcond
        rw [ih k t m vol voice ((b + 1) % m) (τ + 60 / bpm) (by omega) (by omega)]
    · cases k with
      | zero => simp [schedulerLoopF, hcond]
      | succ k => simp [schedulerLoopF, hcond]

/-- With enough fuel the loop emits exactly `iterCount` beats. -/
theorem schedulerLoopF_length {bpm : ℚ} (hb : 0 < bpm) :
    ∀ (fuel : ℕ) (t : ℚ) (m : ℕ) (vol : ℚ) (voice : Bool) (b : ℕ) (τ : ℚ),
      iterCount t bpm τ ≤ fuel →
      (schedulerLoopF fuel t bpm m vol voice b τ).1.length
        = iterCount t bpm τ := by
  intro fuel
  induction fuel with
  | zero =>
    intro t m vol voice b τ hn
    simp only [schedulerLoopF, List.length_nil]
    omega
  | succ n ih =>
    intro t m vol voice b τ hn
    by_cases hcond : τ < t + scheduleAheadTime
    · have hpos := (iterCount_pos_iff hb).mpr hcond
      have hsucc := iterCount_succ hb hcond
      simp only [schedulerLoopF, if_pos hcond, List.length_cons]
      rw [ih t m vol voice _ _ (by omega)]
      omega
    · have h0 : iterCount t bpm τ = 0 := by
        by_contra h0
        exact hcond ((iterCount_pos_iff hb).mp (by omega))
      simp [schedulerLoopF, hcond, h0]

/-- Structure of one loop invocation from cursor `(b, τ)` with `b < m`: the
final cursor advances in lockstep with the number of emitted beats, the
`i`-th emitted beat has index `(b + i) % m`, and its deadline lies `i` beat
intervals past `τ`. -/
theorem schedulerLoopF_spec {m : ℕ} (hm : 0 < m) :
    ∀ (fuel : ℕ) (t bpm vol : ℚ) (voice : Bool) (b : ℕ) (τ : ℚ), b < m →
      (schedulerLoopF fuel t bpm m vol voice b τ).2.1
        = (b + (schedulerLoopF fuel t bpm m vol voice b τ).1.length) % m ∧
      (schedulerLoopF fuel t bpm m vol voice b τ).2.2
        = τ + (schedulerLoopF fuel t bpm m vol voice b τ).1.length * (60 / bpm) ∧
      ∀ i ev, (schedulerLoopF fuel t bpm m vol voice b τ).1.get? i = some ev →
        ev.index = (b + i) % m ∧ ev.deadline = τ + i * (60 / bpm) := by
  intro fuel
  induction fuel with
  | zero =>
    intro t bpm vol voice b τ hblt
    refine ⟨?_, ?_, ?_⟩
    · simp [schedulerLoopF, Nat.mod_eq_of_lt hblt]
    · simp [schedulerLoopF]
    · intro i ev hev
      simp [schedulerLoopF] at hev
  | succ n ih =>
    intro t bpm vol voice b τ hblt
    by_cases hcond : τ < t + scheduleAheadTime
    · have hb1 : (b + 1) % m < m := Nat.mod_lt _ hm
      obtain ⟨ih1, ih2, ih3⟩ := ih t bpm vol voice ((b + 1) % m) (τ + 60 / bpm) hb1
      refine ⟨?_, ?_, ?_⟩
      · simp only [schedulerLoopF, if_pos hcond, List.length_cons]
        rw [ih1, Nat.mod_add_mod]
        have : b + 1 + (schedulerLoopF n t bpm m vol voice ((b + 1) % m)
            (τ + 60 / bpm)).1.length
            = b + ((schedulerLoopF n t bpm m vol voice ((b + 1) % m)
            (τ + 60 / bpm)).1.length + 1) := by omega
        rw [this]
      · simp only [schedulerLoopF, if_pos hcond, List.length_cons]
        rw [ih2]
        push_cast
        ring
      · intro i ev hev
        match i with
        | 0 =>
          simp only [schedulerLoopF, if_pos hcond, List.get?_cons_zero,
            Option.some.injEq] at hev
          subst hev
          refine ⟨?_, ?_⟩
          · simp [Nat.mod_eq_of_lt hblt]
          · simp
        | j + 1 =>
          simp only [schedulerLoopF, if_pos hcond, List.get?_cons_succ] at hev
          obtain ⟨e1, e2⟩ := ih3 j ev hev
          refine ⟨?_, ?_⟩
          · rw [e1, Nat.mod_add_mod]
            have : b + 1 + j = b + (j + 1) := by omega
            rw [this]
          · rw [e2]
            push_cast
            ring
    · refine ⟨?_, ?_, ?_⟩
      · simp [schedulerLoopF, hcond, Nat.mod_eq_of_lt hblt]
      · simp [schedulerLoopF, hcond]
      · intro i ev hev
        simp [schedulerLoopF, hcond] at hev

/-- Every beat the loop emits is built with the accent flag
`index == 0`, the pulse produced by `playTick` from the volume ref, and the
speech request produced by `speakBeatNumber` from the voice ref. -/
theorem schedulerLoopF_mem :
    ∀ (fuel : ℕ) (t bpm : ℚ) (m : ℕ) (vol : ℚ) (voice : Bool) (b : ℕ) (τ : ℚ),
      ∀ ev ∈ (schedulerLoopF fuel t bpm m vol voice b τ).1,
        ev.accent = (ev.index == 0) ∧
        ev.pulse = playTick t (ev.index == 0) vol ∧
        ev.speech = speakBeatNumber voice vol ev.index := by
  intro fuel
  induction fuel with
  | zero =>
    intro t bpm m vol voice b τ ev hev
    simp [schedulerLoopF] at hev
  | succ n ih =>
    intro t bpm m vol voice b τ ev hev
    by_cases hcond : τ < t + scheduleAheadTime
    · simp only [schedulerLoopF, if_pos hcond, List.mem_cons] at hev
      rcases hev with rfl | hev
      · exact ⟨rfl, rfl, rfl⟩
      · exact ih t bpm m vol voice _ _ ev hev
    · simp [schedulerLoopF, hcond] at hev

/-- With a positive meter and an in-range starting index, every emitted
index and the final cursor index stay below the meter. -/
theorem schedulerLoopF_index_lt {m : ℕ} (hm : 0 < m) :
    ∀ (fuel : ℕ) (t bpm vol : ℚ) (voice : Bool) (b : ℕ) (τ : ℚ), b < m →
      (∀ ev ∈ (schedulerLoopF fuel t bpm m vol voice b τ).1, ev.index < m) ∧
      (schedulerLoopF fuel t bpm m vol voice b τ).2.1 < m := by
  intro fuel
  induction fuel with
  | zero =>
    intro t bpm vol voice b τ hblt
    refine ⟨?_, ?_⟩
    · intro ev hev
      simp [schedulerLoopF] at hev
    · simpa [schedulerLoopF] using hblt
  | succ n ih =>
    intro t bpm vol voice b τ hblt
    by_cases hcond : τ < t + scheduleAheadTime
    · obtain ⟨ih1, ih2⟩ := ih t bpm vol voice ((b + 1) % m) (τ + 60 / bpm)
        (Nat.mod_lt _ hm)
      refine ⟨?_, ?_⟩
      · intro ev hev
        simp only [schedulerLoopF, if_pos hcond, List.mem_cons] at hev
        rcases hev with rfl | hev
        · exact hblt
        · exact ih1 ev hev
      · simpa only [schedulerLoopF, if_pos hcond] using ih2
    · refine ⟨?_, ?_⟩
      · intro ev hev
        simp [schedulerLoopF, hcond] at hev
      · simpa [schedulerLoopF, hcond] using hblt

/-! ## Component-level helper lemmas -/

/-- A `scheduler()` invocation never writes the parameter cells: it only advances the
cursor, publishes the beat index, queues speech, and re-arms the timer. -/
theorem schedulerCall_params (now : ℚ) (s : MetronomeState) :
    (schedulerCall now s).1.bpm = s.bpm ∧
    (schedulerCall now s).1.beatsPerMeasure = s.beatsPerMeasure ∧
    (schedulerCall now s).1.isPlaying = s.isPlaying ∧
    (schedulerCall now s).1.volume = s.volume ∧
    (schedulerCall now s).1.voiceEnabled = s.voiceEnabled ∧
    (schedulerCall now s).1.volumeRef = s.volumeRef ∧
    (schedulerCall now s).1.voiceEnabledRef = s.voiceEnabledRef :=
  ⟨rfl, rfl, rfl, rfl, rfl, rfl, rfl⟩

/-- The start/stop effect never writes the parameter cells either. -/
theorem runEffect_params (now : ℚ) (s : MetronomeState) :
    (runEffect now s).1.bpm = s.bpm ∧
    (runEffect now s).1.beatsPerMeasure = s.beatsPerMeasure ∧
    (runEffect now s).1.isPlaying = s.isPlaying ∧
    (runEffect now s).1.volume = s.volume ∧
    (runEffect now s).1.voiceEnabled = s.voiceEnabled ∧
    (runEffect now s).1.volumeRef = s.volumeRef ∧
    (runEffect now s).1.voiceEnabledRef = s.voiceEnabledRef := by
  by_cases h : s.isPlaying <;>
    simp [runEffect, schedulerCall, h]

/-- Every beat emitted by one `scheduler()` invocation carries the accent
flag `index == 0`, a pulse at the accent-dependent frequency and at the
volume ref's current value, and the speech request `speakBeatNumber` builds
from the voice ref's current value. -/
theorem schedulerCall_events_shape (now : ℚ) (s : MetronomeState) :
    ∀ ev ∈ (schedulerCall now s).2,
      ev.accent = (ev.index == 0) ∧
      ev.pulse.frequency = (if (ev.index == 0 : Bool) then (1000 : ℚ) else 800) ∧
      ev.pulse.gain = s.volumeRef ∧
      ev.speech = speakBeatNumber s.voiceEnabledRef s.volumeRef ev.index := by
  intro ev hev
  obtain ⟨h1, h2, h3⟩ := schedulerLoopF_mem
    (iterCount now s.bpm s.nextNoteTimeRef) now s.bpm s.beatsPerMeasure
    s.volumeRef s.voiceEnabledRef s.currentBeatRef s.nextNoteTimeRef ev hev
  exact ⟨h1, by rw [h2]; rfl, by rw [h2]; rfl, h3⟩

/-- Same statement for one run of the start/stop effect. -/
theorem runEffect_events_shape (now : ℚ) (s : MetronomeState) :
    ∀ ev ∈ (runEffect now s).2,
      ev.accent = (ev.index == 0) ∧
      ev.pulse.frequency = (if (ev.index == 0 : Bool) then (1000 : ℚ) else 800) ∧
      ev.pulse.gain = s.volumeRef ∧
      ev.speech = speakBeatNumber s.voiceEnabledRef s.volumeRef ev.index := by
  intro ev hev
  unfold runEffect at hev
  by_cases h : s.isPlaying
  · simp only [h, if_true] at hev
    have hsh := schedulerCall_events_shape now _ ev hev
    simpa using hsh
  · simp [h] at hev

/-- Same statement for an arbitrary component transition: every emitted
beat reads the volume and voice refs as they are in the pre-transition
state. -/
theorem step_events_shape (s : MetronomeState) (a : Action) :
    ∀ ev ∈ (step s a).2,
      ev.accent = (ev.index == 0) ∧
      ev.pulse.frequency = (if (ev.index == 0 : Bool) then (1000 : ℚ) else 800) ∧
      ev.pulse.gain = s.volumeRef ∧
      ev.speech = speakBeatNumber s.voiceEnabledRef s.volumeRef ev.index := by
  intro ev hev
  cases a with
  | poll now =>
    by_cases h : s.timerPending
    · simp only [step, h, if_true] at hev
      exact schedulerCall_events_shape now s ev hev
    · simp [step, h] at hev
  | setTempoInput now newBpm =>
    by_cases h : handleBpmChange newBpm = s.bpm
    · simp [step, h] at hev
    · simp only [step, if_neg h] at hev
      exact runEffect_events_shape now
        { s with bpm := handleBpmChange newBpm } ev hev
  | setMeter now n =>
    by_cases h : n = s.beatsPerMeasure
    · simp [step, h] at hev
    · simp only [step, if_neg h] at hev
      exact runEffect_events_shape now
        { s with beatsPerMeasure := n, currentBeat := 0 } ev hev
  | setVolume v => simp [step] at hev
  | setVoiceEnabled b => simp [step] at hev
  | togglePlay now =>
    simp only [step] at hev
    exact runEffect_events_shape now { s with isPlaying := !s.isPlaying } ev hev

/-- One `scheduler()` invocation inside a running session that started at
`t0` and has emitted `n` beats: the session advances by the number of newly
emitted beats, and the `i`-th new beat has index `(n + i) % meter` and
deadline `t0 + (n + i) · 60/bpm`. -/
theorem schedulerCall_session (now t0 : ℚ) (n : ℕ) (s : MetronomeState)
    (hb : 0 < s.bpm) (hm : 0 < s.beatsPerMeasure) (hsess : InSession t0 n s) :
    InSession t0 (n + (schedulerCall now s).2.length) (schedulerCall now s).1 ∧
    ∀ i ev, (schedulerCall now s).2.get? i = some ev →
      ev.index = (n + i) % s.beatsPerMeasure ∧
      ev.deadline = t0 + (n + i) * (60 / s.bpm) := by
  obtain ⟨hp, hbeat, hτ⟩ := hsess
  have hblt : s.currentBeatRef < s.beatsPerMeasure := by
    rw [hbeat]; exact Nat.mod_lt _ hm
  obtain ⟨h1, h2, h3⟩ := schedulerLoopF_spec hm
    (iterCount now s.bpm s.nextNoteTimeRef) now s.bpm s.volumeRef
    s.voiceEnabledRef s.currentBeatRef s.nextNoteTimeRef hblt
  constructor
  · refine ⟨hp, ?_, ?_⟩
    · simp only [schedulerCall, scheduler]
      rw [h1, hbeat, Nat.mod_add_mod]
    · simp only [schedulerCall, scheduler]
      rw [h2, hτ]
      push_cast
      ring
  · intro i ev hev
    simp only [schedulerCall, scheduler] at hev
    obtain ⟨e1, e2⟩ := h3 i ev hev
    constructor
    · rw [e1, hbeat, Nat.mod_add_mod]
    · rw [e2, hτ]
      push_cast
      ring

/-- A timer callback inside a running session: parameters survive, the
session advances by the number of emitted beats, and each new beat continues
the arithmetic train. -/
theorem step_poll_session (now t0 : ℚ) (n : ℕ) (s : MetronomeState)
    (hb : 0 < s.bpm) (hm : 0 < s.beatsPerMeasure) (hsess : InSession t0 n s) :
    (step s (Action.poll now)).1.bpm = s.bpm ∧
    (step s (Action.poll now)).1.beatsPerMeasure = s.beatsPerMeasure ∧
    InSession t0 (n + (step s (Action.poll now)).2.length)
      (step s (Action.poll now)).1 ∧
    ∀ i ev, (step s (Action.poll now)).2.get? i = some ev →
      ev.index = (n + i) % s.beatsPerMeasure ∧
      ev.deadline = t0 + (n + i) * (60 / s.bpm) := by
  by_cases h : s.timerPending
  · simp only [step, h, if_true]
    obtain ⟨hs, hev⟩ := schedulerCall_session now t0 n s hb hm hsess
    exact ⟨rfl, rfl, hs, hev⟩
  · simp only [step, h, if_false]
    exact ⟨rfl, rfl, by simpa using hsess, by intro i ev hev; simp at hev⟩

/-- Processing any train of timer callbacks from a state inside a running
session: every emitted beat continues the index/deadline train. -/
theorem runActions_polls_session (t0 : ℚ) :
    ∀ (polls : List ℚ) (s : MetronomeState) (n : ℕ),
      0 < s.bpm → 0 < s.beatsPerMeasure → InSession t0 n s →
      ∀ i ev, (runActions s (polls.map Action.poll)).2.get? i = some ev →
        ev.index = (n + i) % s.beatsPerMeasure ∧
        ev.deadline = t0 + (n + i) * (60 / s.bpm) := by
  intro polls
  induction polls with
  | nil =>
    intro s n hb hm hsess i ev hev
    simp [runActions] at hev
  | cons now polls ih =>
    intro s n hb hm hsess i ev hev
    obtain ⟨hbpm, hmeq, hsess1, hev1⟩ := step_poll_session now t0 n s hb hm hsess
    simp only [List.map_cons, runActions] at hev
    by_cases hi : i < (step s (Action.poll now)).2.length
    · rw [List.get?_append hi] at hev
      exact hev1 i ev hev
    · push_neg at hi
      rw [List.get?_append_right hi] at hev
      have hb1 : 0 < (step s (Action.poll now)).1.bpm := by rw [hbpm]; exact hb
      have hm1 : 0 < (step s (Action.poll now)).1.beatsPerMeasure := by
        rw [hmeq]; exact hm
      obtain ⟨e1, e2⟩ := ih (step s (Action.poll now)).1
        (n + (step s (Action.poll now)).2.length) hb1 hm1 hsess1
        (i - (step s (Action.poll now)).2.length) ev hev
      rw [hbpm] at e2
      rw [hmeq] at e1
      have hnat : n + (step s (Action.poll now)).2.length
          + (i - (step s (Action.poll now)).2.length) = n + i := by omega
      rw [hnat] at e1
      have hq : ((n + (step s (Action.poll now)).2.length : ℕ) : ℚ)
          + ((i - (step s (Action.poll now)).2.length : ℕ) : ℚ)
          = (n : ℚ) + (i : ℚ) := by
        rw [Nat.cast_add, Nat.cast_sub hi]
        ring
      rw [hq] at e2
      exact ⟨e1, e2⟩

/-- Pressing play while stopped starts a session at the press's clock value
`t0`: the cursor restarts at `(0, t0)` and the beats emitted by the
synchronous `scheduler()` call follow the index/deadline train from 0. -/
theorem step_togglePlay_start (t0 : ℚ) (s : MetronomeState)
    (hstop : s.isPlaying = false) (hb : 0 < s.bpm) (hm : 0 < s.beatsPerMeasure) :
    (step s (Action.togglePlay t0)).1.bpm = s.bpm ∧
    (step s (Action.togglePlay t0)).1.beatsPerMeasure = s.beatsPerMeasure ∧
    InSession t0 (step s (Action.togglePlay t0)).2.length
      (step s (Action.togglePlay t0)).1 ∧
    ∀ i ev, (step s (Action.togglePlay t0)).2.get? i = some ev →
      ev.index = i % s.beatsPerMeasure ∧
      ev.deadline = t0 + i * (60 / s.bpm) := by
  have hstep : step s (Action.togglePlay t0)
      = schedulerCall t0
        { s with
          isPlaying := true
          timerPending := false
          speechQueue := []
          nextNoteTimeRef := t0
          currentBeatRef := 0
          currentBeat := 0 } := by
    simp [step, runEffect, hstop]
  have hsess0 : InSession t0 0
      { s with
        isPlaying := true
        timerPending := false
        speechQueue := []
        nextNoteTimeRef := t0
        currentBeatRef := 0
        currentBeat := 0 } := by
    refine ⟨rfl, ?_, ?_⟩
    · simp
    · simp
  obtain ⟨hs, hev⟩ := schedulerCall_session t0 t0 0 _ (by simpa using hb)
    (by simpa using hm) hsess0
  rw [hstep]
  refine ⟨rfl, rfl, ?_, ?_⟩
  · simpa using hs
  · intro i ev he
    obtain ⟨e1, e2⟩ := hev i ev he
    refine ⟨by simpa using e1, ?_⟩
    rw [e2]
    push_cast
    ring

/-- A whole session: press play at `t0` from a stopped state, then process
any train of timer callbacks.  The `k`-th beat emitted overall has index
`k % meter` and deadline `t0 + k · 60/bpm`. -/
theorem session_spec (s : MetronomeState) (t0 : ℚ) (polls : List ℚ)
    (hstop : s.isPlaying = false) (hb : 0 < s.bpm) (hm : 0 < s.beatsPerMeasure) :
    ∀ k ev, (runActions s
        (Action.togglePlay t0 :: polls.map Action.poll)).2.get? k = some ev →
      ev.index = k % s.beatsPerMeasure ∧
      ev.deadline = t0 + k * (60 / s.bpm) := by
  intro k ev hev
  obtain ⟨hbpm, hmeq, hsess, hfirst⟩ := step_togglePlay_start t0 s hstop hb hm
  simp only [runActions] at hev
  by_cases hk : k < (step s (Action.togglePlay t0)).2.length
  · rw [List.get?_append hk] at hev
    exact hfirst k ev hev
  · push_neg at hk
    rw [List.get?_append_right hk] at hev
    obtain ⟨e1, e2⟩ := runActions_polls_session t0 polls _ _
      (by rw [hbpm]; exact hb) (by rw [hmeq]; exact hm) hsess _ ev hev
    rw [hbpm] at e2
    rw [hmeq] at e1
    have hnat : (step s (Action.togglePlay t0)).2.length
        + (k - (step s (Action.togglePlay t0)).2.length) = k := by omega
    rw [hnat] at e1
    have hq : (((step s (Action.togglePlay t0)).2.length : ℕ) : ℚ)
        + ((k - (step s (Action.togglePlay t0)).2.length : ℕ) : ℚ)
        = (k : ℚ) := by
      rw [Nat.cast_sub hk]
      ring
    rw [hq] at e2
    exact ⟨e1, e2⟩

/-! ## Invariant preservation -/

/-- One `scheduler()` invocation keeps the published index and the beat ref
below the meter. -/
theorem schedulerCall_beatInv (now : ℚ) (s : MetronomeState)
    (hm : 0 < s.beatsPerMeasure) (hcb : s.currentBeat < s.beatsPerMeasure)
    (hbr : s.currentBeatRef < s.beatsPerMeasure) :
    BeatInv (schedulerCall now s).1 := by
  obtain ⟨hall, hfin⟩ := schedulerLoopF_index_lt hm
    (iterCount now s.bpm s.nextNoteTimeRef) now s.bpm s.volumeRef
    s.voiceEnabledRef s.currentBeatRef s.nextNoteTimeRef hbr
  have hall2 : ∀ ev ∈ (scheduler now s.bpm s.beatsPerMeasure s.volumeRef
      s.voiceEnabledRef s.currentBeatRef s.nextNoteTimeRef).1,
      ev.index < s.beatsPerMeasure := hall
  refine ⟨hm, ?_, hfin⟩
  simp only [schedulerCall]
  cases hl : (scheduler now s.bpm s.beatsPerMeasure s.volumeRef
      s.voiceEnabledRef s.currentBeatRef s.nextNoteTimeRef).1.getLast? with
  | none => simpa [hl] using hcb
  | some ev =>
    simpa [hl] using hall2 ev (List.mem_of_mem_getLast? hl)

/-- One run of the start/stop effect establishes the beat-range invariant
for any positive meter. -/
theorem runEffect_beatInv (now : ℚ) (s : MetronomeState)
    (hm : 0 < s.beatsPerMeasure) : BeatInv (runEffect now s).1 := by
  unfold runEffect
  by_cases h : s.isPlaying
  · simp only [h, if_true]
    exact schedulerCall_beatInv now _ (by simpa using hm) (by simpa using hm)
      (by simpa using hm)
  · simp only [h, if_false]
    exact ⟨hm, hm, hm⟩

/-- Every component transition delivered by the UI preserves the beat-range
invariant. -/
theorem step_beatInv (s : MetronomeState) (a : Action)
    (hinv : BeatInv s) (hva : ValidAction a) : BeatInv (step s a).1 := by
  obtain ⟨hm, hcb, hbr⟩ := hinv
  cases a with
  | poll now =>
    by_cases h : s.timerPending
    · simp only [step, h, if_true]
      exact schedulerCall_beatInv now s hm hcb hbr
    · simp only [step, h, if_false]
      exact ⟨hm, hcb, hbr⟩
  | setTempoInput now newBpm =>
    by_cases h : handleBpmChange newBpm = s.bpm
    · simp only [step, if_pos h]
      exact ⟨hm, hcb, hbr⟩
    · simp only [step, if_neg h]
      exact runEffect_beatInv now _ (by simpa using hm)
  | setMeter now n =>
    have hva2 : n = 2 ∨ n = 3 ∨ n = 4 ∨ n = 5 ∨ n = 6 := hva
    have hn : 0 < n := by omega
    by_cases h : n = s.beatsPerMeasure
    · simp only [step, if_pos h]
      exact ⟨hm, hm, hbr⟩
    · simp only [step, if_neg h]
      exact runEffect_beatInv now _ (by simpa using hn)
  | setVolume v => exact ⟨hm, hcb, hbr⟩
  | setVoiceEnabled b => exact ⟨hm, hcb, hbr⟩
  | togglePlay now =>
    simp only [step]
    exact runEffect_beatInv now _ (by simpa using hm)

/-- Every reachable component state satisfies the beat-range invariant. -/
theorem reachable_beatInv (s : MetronomeState) (h : Reachable s) :
    BeatInv s := by
  induction h with
  | init => exact ⟨by decide, by decide, by decide⟩
  | next hr hva ih => exact step_beatInv _ _ ih hva

/-- Clamping via `handleBpmChange` always lands in `[40, 240]`. -/
theorem handleBpmChange_mem (x : ℚ) :
    40 ≤ handleBpmChange x ∧ handleBpmChange x ≤ 240 := by
  unfold handleBpmChange
  exact ⟨le_max_left _ _, max_le (by norm_num) (min_le_left _ _)⟩

/-- Every component transition preserves the tempo-range invariant. -/
theorem step_bpmInv (s : MetronomeState) (a : Action) (h : BpmInv s) :
    BpmInv (step s a).1 := by
  obtain ⟨h1, h2⟩ := h
  cases a with
  | poll now =>
    by_cases ht : s.timerPending
    · simp only [step, ht, if_true]
      exact ⟨h1, h2⟩
    · simp only [step, ht, if_false]
      exact ⟨h1, h2⟩
  | setTempoInput now newBpm =>
    by_cases hc : handleBpmChange newBpm = s.bpm
    · simp only [step, if_pos hc]
      exact ⟨h1, h2⟩
    · simp only [step, if_neg hc]
      have hp := (runEffect_params now { s with bpm := handleBpmChange newBpm }).1
      refine ⟨?_, ?_⟩
      · rw [hp]
        exact (handleBpmChange_mem newBpm).1
      · rw [hp]
        exact (handleBpmChange_mem newBpm).2
  | setMeter now n =>
    by_cases hc : n = s.beatsPerMeasure
    · simp only [step, if_pos hc]
      exact ⟨h1, h2⟩
    · simp only [step, if_neg hc]
      have hp := (runEffect_params now
        { s with beatsPerMeasure := n, currentBeat := 0 }).1
      refine ⟨?_, ?_⟩
      · rw [hp]
        exact h1
      · rw [hp]
        exact h2
  | setVolume v => exact ⟨h1, h2⟩
  | setVoiceEnabled b => exact ⟨h1, h2⟩
  | togglePlay now =>
    simp only [step]
    have hp := (runEffect_params now { s with isPlaying := !s.isPlaying }).1
    refine ⟨?_, ?_⟩
    · rw [hp]
      exact h1
    · rw [hp]
      exact h2

/-- Every reachable component state has its tempo in `[40, 240]`. -/
theorem reachable_bpmInv (s : MetronomeState) (h : Reachable s) :
    BpmInv s := by
  induction h with
  | init =>
    refine ⟨?_, ?_⟩ <;> norm_num [initState, BpmInv]
  | next hr hva ih => exact step_bpmInv _ _ ih

/-- No transition other than the voice toggle itself re-enables the voice
ref: once it is false it stays false. -/
theorem step_voiceRef_false (s : MetronomeState) (a : Action)
    (h : s.voiceEnabledRef = false) (ha : a ≠ Action.setVoiceEnabled true) :
    (step s a).1.voiceEnabledRef = false := by
  cases a with
  | poll now =>
    by_cases ht : s.timerPending
    · simp only [step, ht, if_true]
      exact h
    · simp only [step, ht, if_false]
      exact h
  | setTempoInput now newBpm =>
    by_cases hc : handleBpmChange newBpm = s.bpm
    · simp only [step, if_pos hc]
      exact h
    · simp only [step, if_neg hc]
      rw [(runEffect_params now
        { s with bpm := handleBpmChange newBpm }).2.2.2.2.2.2]
      exact h
  | setMeter now n =>
    by_cases hc : n = s.beatsPerMeasure
    · simp only [step, if_pos hc]
      exact h
    · simp only [step, if_neg hc]
      rw [(runEffect_params now
        { s with beatsPerMeasure := n, currentBeat := 0 }).2.2.2.2.2.2]
      exact h
  | setVolume v => exact h
  | setVoiceEnabled b =>
    cases b with
    | false => rfl
    | true => exact absurd rfl ha
  | togglePlay now =>
    simp only [step]
    rw [(runEffect_params now { s with isPlaying := !s.isPlaying }).2.2.2.2.2.2]
    exact h

/-- While the voice ref is false and no action re-enables it, no emitted
beat carries a speech request. -/
theorem runActions_voice_off (acts : List Action) :
    ∀ s : MetronomeState, s.voiceEnabledRef = false →
      (∀ a ∈ acts, a ≠ Action.setVoiceEnabled true) →
      ∀ ev ∈ (runActions s acts).2, ev.speech = none := by
  induction acts with
  | nil =>
    intro s h ha ev hev
    simp [runActions] at hev
  | cons a as ih =>
    intro s h ha ev hev
    simp only [runActions, List.mem_append] at hev
    rcases hev with hev | hev
    · have hsh := (step_events_shape s a ev hev).2.2.2
      rw [hsh, h]
      simp [speakBeatNumber]
    · exact ih (step s a).1
        (step_voiceRef_false s a h (ha a (List.mem_cons_self a as)))
        (fun b hb => ha b (List.mem_cons_of_mem a hb)) ev hev

/-- When the guard holds on entry, the catch-up loop emits at least one
beat, and the first one is the current cursor beat at the current cursor
deadline. -/
theorem scheduler_head (t bpm : ℚ) (m : ℕ) (vol : ℚ) (voice : Bool)
    (b : ℕ) (τ : ℚ) (hb : 0 < bpm) (h : τ < t + scheduleAheadTime) :
    (scheduler t bpm m vol voice b τ).1
      = { index := b
          accent := b == 0
          deadline := τ
          pulse := playTick t (b == 0) vol
          speech := speakBeatNumber voice vol b }
        :: (schedulerLoopF (iterCount t bpm τ - 1) t bpm m vol voice
            ((b + 1) % m) (τ + 60 / bpm)).1 := by
  have hpos : 0 < iterCount t bpm τ := (iterCount_pos_iff hb).mpr h
  unfold scheduler
  obtain ⟨k, hk⟩ : ∃ k, iterCount t bpm τ = k + 1 :=
    ⟨iterCount t bpm τ - 1, by omega⟩
  rw [hk]
  simp [schedulerLoopF, h, Nat.add_sub_cancel]

/-- The final deadline produced by the loop is the entry deadline advanced
once per emitted beat. -/
theorem schedulerLoopF_finalTime :
    ∀ (fuel : ℕ) (t bpm : ℚ) (m : ℕ) (vol : ℚ) (voice : Bool) (b : ℕ) (τ : ℚ),
      (schedulerLoopF fuel t bpm m vol voice b τ).2.2
        = τ + (schedulerLoopF fuel t bpm m vol voice b τ).1.length
            * (60 / bpm) := by
  intro fuel
  induction fuel with
  | zero =>
    intro t bpm m vol voice b τ
    simp [schedulerLoopF]
  | succ n ih =>
    intro t bpm m vol voice b τ
    by_cases hcond : τ < t + scheduleAheadTime
    · simp only [schedulerLoopF, if_pos hcond, List.length_cons]
      rw [ih]
      push_cast
      ring
    · simp [schedulerLoopF, hcond]

/-- When the loop returns, its guard has become false: the cursor deadline
has moved out of the look-ahead window. -/
theorem scheduler_exits (t bpm : ℚ) (m : ℕ) (vol : ℚ) (voice : Bool)
    (b : ℕ) (τ : ℚ) (hb : 0 < bpm) :
    ¬ (scheduler t bpm m vol voice b τ).2.2 < t + scheduleAheadTime := by
  rw [not_lt]
  have hlen := schedulerLoopF_length hb (iterCount t bpm τ) t m vol voice b τ
    le_rfl
  have hfin := schedulerLoopF_finalTime (iterCount t bpm τ) t bpm m vol voice
    b τ
  unfold scheduler
  rw [hfin, hlen]
  by_cases h : τ < t + scheduleAheadTime
  · have hgpos := iterCount_arg_pos hb h
    have hceil : (0:ℤ) ≤ ⌈(t + scheduleAheadTime - τ) * bpm / 60⌉ :=
      le_of_lt (Int.ceil_pos.mpr hgpos)
    have hcast : ((iterCount t bpm τ : ℕ) : ℚ)
        = ((⌈(t + scheduleAheadTime - τ) * bpm / 60⌉ : ℤ) : ℚ) := by
      unfold iterCount
      exact_mod_cast congrArg (Int.cast : ℤ → ℚ) (Int.toNat_of_nonneg hceil)
    rw [hcast]
    have hge : ((t + scheduleAheadTime - τ) * bpm / 60)
        ≤ ((⌈(t + scheduleAheadTime - τ) * bpm / 60⌉ : ℤ) : ℚ) := Int.le_ceil _
    have hbne : bpm ≠ 0 := ne_of_gt hb
    have hδ : (0:ℚ) ≤ 60 / bpm := by positivity
    have hmul := mul_le_mul_of_nonneg_right hge hδ
    have hsimp : ((t + scheduleAheadTime - τ) * bpm / 60) * (60 / bpm)
        = t + scheduleAheadTime - τ := by
      field_simp
    rw [hsimp] at hmul
    linarith
  · push_neg at h
    have h0 : iterCount t bpm τ = 0 := by
      by_contra hc
      exact absurd ((iterCount_pos_iff hb).mp (by omega)) (not_lt.mpr h)
    rw [h0]
    push_cast
    linarith

/-! ## Claims -/

/-- Claim C1, counterexample: Concrete refutation of the claim as stated.
Run with the defaults (bpm 120, meter 4): start at clock 0 (emits beat 0,
cursor deadline moves to 0.5), poll at clock 0.45 (emits beat 1 at deadline
0.5, cursor now at next-beat index 2 with deadline 1).  A tempo change to
240 at clock 0.46 — while running, before the next deadline — makes the
next emitted beat have index 0 at deadline 0.46, not the claimed index
`(1+1) mod 4 = 2` at the previously computed deadline 1. -/
theorem tempo_change_cursor_cex :
    (runActions initState
        [Action.togglePlay 0, Action.poll (45/100)]).1.isPlaying = true ∧
    ((runActions initState
        [Action.togglePlay 0, Action.poll (45/100)]).2.map
          BeatEvent.index) = [0, 1] ∧
    (runActions initState
        [Action.togglePlay 0, Action.poll (45/100)]).1.currentBeatRef = 2 ∧
    (runActions initState
        [Action.togglePlay 0, Action.poll (45/100)]).1.nextNoteTimeRef = 1 ∧
    ((step (runActions initState
        [Action.togglePlay 0, Action.poll (45/100)]).1
        (Action.setTempoInput (46/100) 240)).2.map BeatEvent.index) = [0] ∧
    ((step (runActions initState
        [Action.togglePlay 0, Action.poll (45/100)]).1
        (Action.setTempoInput (46/100) 240)).2.map BeatEvent.deadline)
      = [46/100] ∧
    (0 : ℕ) ≠ (1 + 1) % 4 ∧ (46/100 : ℚ) ≠ 1 := by
  norm_num [runActions, step, runEffect, schedulerCall, scheduler, iterCount,
    ceil_eq_neg_floor_neg, schedulerLoopF, scheduleAheadTime, playTick,
    speakBeatNumber, handleBpmChange, initState, List.getLast?, Option.elim]

/-- Claim C1, amended: A tempo change while running (to a different clamped
value — an equal value re-runs nothing) does *not* leave the scheduler
cursor unchanged: the start/stop effect re-runs because its dependency list
contains `bpm`, and that restarts the cursor.  The stored tempo becomes the
clamped input; the next emitted beat — emitted synchronously by the
restarted scheduler — has index 0 (not `(k+1) mod m`), is accented, and its
deadline is the clock value of the change (not the previously computed
deadline); from there deadlines advance by `60 / t2`. -/
theorem tempo_change_while_running_restarts (s : MetronomeState)
    (now x : ℚ) (hp : s.isPlaying = true)
    (hne : handleBpmChange x ≠ s.bpm) (hm : 0 < s.beatsPerMeasure) :
    (step s (Action.setTempoInput now x)).1.bpm = handleBpmChange x ∧
    (∃ rest, (step s (Action.setTempoInput now x)).2
      = { index := 0, accent := true, deadline := now,
          pulse := playTick now true s.volumeRef,
          speech := speakBeatNumber s.voiceEnabledRef s.volumeRef 0 } :: rest) ∧
    ∀ i ev, (step s (Action.setTempoInput now x)).2.get? i = some ev →
      ev.index = i % s.beatsPerMeasure ∧
      ev.deadline = now + i * (60 / handleBpmChange x) := by
  have hb : (0:ℚ) < handleBpmChange x :=
    lt_of_lt_of_le (by norm_num) (handleBpmChange_mem x).1
  have hcond : now < now + scheduleAheadTime := by
    have : (0:ℚ) < scheduleAheadTime := by norm_num [scheduleAheadTime]
    linarith
  have hstep : step s (Action.setTempoInput now x)
      = schedulerCall now
        { s with
          bpm := handleBpmChange x
          timerPending := false
          speechQueue := []
          nextNoteTimeRef := now
          currentBeatRef := 0
          currentBeat := 0 } := by
    simp [step, if_neg hne, runEffect, hp]
  have hsess0 : InSession now 0
      { s with
        bpm := handleBpmChange x
        timerPending := false
        speechQueue := []
        nextNoteTimeRef := now
        currentBeatRef := 0
        currentBeat := 0 } := by
    refine ⟨hp, ?_, ?_⟩
    · simp
    · simp
  obtain ⟨hs, hev⟩ := schedulerCall_session now now 0 _ (by simpa using hb)
    (by simpa using hm) hsess0
  rw [hstep]
  refine ⟨rfl, ?_, ?_⟩
  · exact ⟨_, scheduler_head now (handleBpmChange x) s.beatsPerMeasure
      s.volumeRef s.voiceEnabledRef 0 now hb hcond⟩
  · intro i ev he
    obtain ⟨e1, e2⟩ := hev i ev he
    refine ⟨by simpa using e1, ?_⟩
    rw [e2]
    push_cast
    ring

/-- Witness for the amended C1: the initial state with play pressed, hit
with a tempo change to 240 at clock 0.46. -/
theorem tempo_change_while_running_restarts_witness :
    playingState.isPlaying = true ∧
    handleBpmChange 240 ≠ playingState.bpm ∧
    0 < playingState.beatsPerMeasure ∧
    ((step playingState
        (Action.setTempoInput (46/100) 240)).1.bpm = handleBpmChange 240 ∧
      (∃ rest, (step playingState (Action.setTempoInput (46/100) 240)).2
        = { index := 0, accent := true, deadline := 46/100,
            pulse := playTick (46/100) true playingState.volumeRef,
            speech := speakBeatNumber playingState.voiceEnabledRef
              playingState.volumeRef 0 } :: rest) ∧
      ∀ i ev, (step playingState
          (Action.setTempoInput (46/100) 240)).2.get? i = some ev →
        ev.index = i % playingState.beatsPerMeasure ∧
        ev.deadline = 46/100 + i * (60 / handleBpmChange 240)) :=
  ⟨rfl, by norm_num [handleBpmChange, playingState, initState],
    by norm_num [playingState, initState],
    tempo_change_while_running_restarts playingState
      (46/100) 240 rfl (by norm_num [handleBpmChange, playingState, initState])
      (by norm_num [playingState, initState])⟩

/-- Claim C2: For every tempo in `[40, 240]` and meter in `{2,3,4,5,6}`, after
pressing play with those parameters and with no further parameter changes,
the `k`-th emitted beat has index `k % m` — the cyclic train
`0,1,…,m−1,0,…` — and deadline `t0 + k · 60/t`, so consecutive beat
deadlines are spaced exactly `60/t` seconds apart for as long as the
scheduler runs. -/
theorem beat_train_after_start (s : MetronomeState) (t0 : ℚ) (polls : List ℚ)
    (hstop : s.isPlaying = false) (h40 : 40 ≤ s.bpm) (h240 : s.bpm ≤ 240)
    (hm : s.beatsPerMeasure = 2 ∨ s.beatsPerMeasure = 3 ∨
      s.beatsPerMeasure = 4 ∨ s.beatsPerMeasure = 5 ∨ s.beatsPerMeasure = 6) :
    ∀ k ev, (runActions s
        (Action.togglePlay t0 :: polls.map Action.poll)).2.get? k = some ev →
      (ev.index = k % s.beatsPerMeasure ∧
        ev.deadline = t0 + k * (60 / s.bpm)) ∧
      ∀ ev2, (runActions s
          (Action.togglePlay t0 :: polls.map Action.poll)).2.get? (k + 1)
            = some ev2 →
        ev2.deadline - ev.deadline = 60 / s.bpm := by
  have hb : 0 < s.bpm := lt_of_lt_of_le (by norm_num) h40
  have hm0 : 0 < s.beatsPerMeasure := by rcases hm with h|h|h|h|h <;> omega
  intro k ev hev
  obtain ⟨e1, e2⟩ := session_spec s t0 polls hstop hb hm0 k ev hev
  refine ⟨⟨e1, e2⟩, ?_⟩
  intro ev2 hev2
  obtain ⟨f1, f2⟩ := session_spec s t0 polls hstop hb hm0 (k + 1) ev2 hev2
  rw [e2, f2]
  push_cast
  ring

/-- Witness for C2: the default stopped state, started at clock 0 with one
poll at clock 0.45. -/
theorem beat_train_after_start_witness :
    initState.isPlaying = false ∧ (40:ℚ) ≤ initState.bpm ∧
    initState.bpm ≤ 240 ∧
    (initState.beatsPerMeasure = 2 ∨ initState.beatsPerMeasure = 3 ∨
      initState.beatsPerMeasure = 4 ∨ initState.beatsPerMeasure = 5 ∨
      initState.beatsPerMeasure = 6) ∧
    ∀ k ev, (runActions initState
        (Action.togglePlay 0 :: ([45/100] : List ℚ).map Action.poll)).2.get? k
          = some ev →
      (ev.index = k % initState.beatsPerMeasure ∧
        ev.deadline = 0 + k * (60 / initState.bpm)) ∧
      ∀ ev2, (runActions initState
          (Action.togglePlay 0 :: ([45/100] : List ℚ).map
            Action.poll)).2.get? (k + 1) = some ev2 →
        ev2.deadline - ev.deadline = 60 / initState.bpm :=
  ⟨rfl, by norm_num [initState], by norm_num [initState],
    Or.inr (Or.inr (Or.inl rfl)),
    beat_train_after_start initState 0 [45/100] rfl
      (by norm_num [initState]) (by norm_num [initState])
      (Or.inr (Or.inr (Or.inl rfl)))⟩

/-- Claim C3: Within the life of one running session (a start and any train of
timer callbacks, no parameter change), the next-beat deadline never
decreases from one emitted beat to the next, and each new beat index equals
the previous index plus one, modulo the meter. -/
theorem session_cursor_invariant (s : MetronomeState) (t0 : ℚ)
    (polls : List ℚ) (hstop : s.isPlaying = false) (hb : 0 < s.bpm)
    (hm : 0 < s.beatsPerMeasure) :
    ∀ k ev ev2,
      (runActions s (Action.togglePlay t0 :: polls.map Action.poll)).2.get? k
        = some ev →
      (runActions s (Action.togglePlay t0 :: polls.map Action.poll)).2.get?
        (k + 1) = some ev2 →
      ev.deadline ≤ ev2.deadline ∧
      ev2.index = (ev.index + 1) % s.beatsPerMeasure := by
  intro k ev ev2 hev hev2
  obtain ⟨e1, e2⟩ := session_spec s t0 polls hstop hb hm k ev hev
  obtain ⟨f1, f2⟩ := session_spec s t0 polls hstop hb hm (k + 1) ev2 hev2
  constructor
  · rw [e2, f2]
    have hδ : (0:ℚ) ≤ 60 / s.bpm := by positivity
    push_cast
    nlinarith
  · rw [e1, f1]
    exact (Nat.mod_add_mod k s.beatsPerMeasure 1).symm

/-- Witness for C3: the default stopped state, started at clock 0 with one
poll at clock 0.45. -/
theorem session_cursor_invariant_witness :
    initState.isPlaying = false ∧ 0 < initState.bpm ∧
    0 < initState.beatsPerMeasure ∧
    ∀ k ev ev2,
      (runActions initState (Action.togglePlay 0 :: ([45/100] : List ℚ).map
        Action.poll)).2.get? k = some ev →
      (runActions initState (Action.togglePlay 0 :: ([45/100] : List ℚ).map
        Action.poll)).2.get? (k + 1) = some ev2 →
      ev.deadline ≤ ev2.deadline ∧
      ev2.index = (ev.index + 1) % initState.beatsPerMeasure :=
  ⟨rfl, by norm_num [initState], by norm_num [initState],
    session_cursor_invariant initState 0 [45/100] rfl
      (by norm_num [initState]) (by norm_num [initState])⟩

/-- Claim C4: For every emitted beat, the accent flag passed to the pulse
emitter and used by the announcer equals `beatIndex == 0`: the beat is
accented iff its index is 0, the pulse frequency is 1000 exactly for index
0 (800 otherwise), and any announcement's pitch is 1.3 exactly for index 0
(1.0 otherwise). -/
theorem accent_iff_first_beat (s : MetronomeState) (a : Action) :
    ∀ ev ∈ (step s a).2,
      ev.accent = (ev.index == 0) ∧
      (ev.accent = true ↔ ev.index = 0) ∧
      ev.pulse.frequency = (if ev.index = 0 then 1000 else 800) ∧
      ∀ u ∈ ev.speech, u.pitch = (if ev.index = 0 then 13 / 10 else 1) := by
  intro ev hev
  obtain ⟨h1, h2, _, h4⟩ := step_events_shape s a ev hev
  refine ⟨h1, ?_, ?_, ?_⟩
  · rw [h1]
    simp
  · rw [h2]
    by_cases hz : ev.index = 0 <;> simp [hz]
  · intro u hu
    rw [h4] at hu
    unfold speakBeatNumber at hu
    by_cases hv : s.voiceEnabledRef
    · simp only [hv, Bool.not_true, Bool.false_eq_true, if_false,
        Option.mem_def, Option.some.injEq] at hu
      subst hu
      rfl
    · simp only [Bool.not_eq_true] at hv
      simp [hv] at hu

/-- Witness for C4: the first beat emitted when play is pressed from the
default state. -/
theorem accent_iff_first_beat_witness :
    firstBeat ∈ (step initState (Action.togglePlay 0)).2 ∧
    (firstBeat.accent = (firstBeat.index == 0) ∧
      (firstBeat.accent = true ↔ firstBeat.index = 0) ∧
      firstBeat.pulse.frequency
        = (if firstBeat.index = 0 then 1000 else 800) ∧
      ∀ u ∈ firstBeat.speech,
        u.pitch = (if firstBeat.index = 0 then 13 / 10 else 1)) := by
  have hmem : firstBeat ∈ (step initState (Action.togglePlay 0)).2 := by
    norm_num [step, runEffect, schedulerCall, scheduler, iterCount,
      ceil_eq_neg_floor_neg, schedulerLoopF, scheduleAheadTime, playTick,
      speakBeatNumber, initState, firstBeat]
  exact ⟨hmem, accent_iff_first_beat initState (Action.togglePlay 0) _ hmem⟩

/-- Claim C5: Pressing stop while running halts the scheduling loop by
releasing the pending timer, cancels the whole pending announcement queue
in one operation, and resets the published beat index (and the beat ref) to
0, all without emitting any pulse or announcement. -/
theorem stop_halts_and_cancels (s : MetronomeState) (now : ℚ)
    (hp : s.isPlaying = true) :
    (step s (Action.togglePlay now)).1.isPlaying = false ∧
    (step s (Action.togglePlay now)).1.timerPending = false ∧
    (step s (Action.togglePlay now)).1.speechQueue = [] ∧
    (step s (Action.togglePlay now)).1.currentBeat = 0 ∧
    (step s (Action.togglePlay now)).1.currentBeatRef = 0 ∧
    (step s (Action.togglePlay now)).2 = [] := by
  simp [step, runEffect, hp]

/-- Witness for C5: stopping the default state with play pressed. -/
theorem stop_halts_and_cancels_witness :
    playingState.isPlaying = true ∧
    ((step playingState (Action.togglePlay 7)).1.isPlaying = false ∧
      (step playingState (Action.togglePlay 7)).1.timerPending = false ∧
      (step playingState (Action.togglePlay 7)).1.speechQueue = [] ∧
      (step playingState (Action.togglePlay 7)).1.currentBeat = 0 ∧
      (step playingState (Action.togglePlay 7)).1.currentBeatRef = 0 ∧
      (step playingState (Action.togglePlay 7)).2 = []) :=
  ⟨rfl, stop_halts_and_cancels playingState 7 rfl⟩

/-- Claim C6: Changing the meter (to a different value — an equal value
re-runs nothing) restarts the cursor, for any beat index and either running
state: if running, the very next emitted beat — emitted synchronously by
the restarted scheduler — has index 0 and is accented; if stopped, the
change emits nothing and the first beat of the next start has index 0 and
is accented. -/
theorem meter_change_resets (s : MetronomeState) (now now2 : ℚ) (n : ℕ)
    (hb : 0 < s.bpm) (hne : n ≠ s.beatsPerMeasure) :
    (s.isPlaying = true →
      ∃ rest, (step s (Action.setMeter now n)).2
        = { index := 0, accent := true, deadline := now,
            pulse := playTick now true s.volumeRef,
            speech := speakBeatNumber s.voiceEnabledRef s.volumeRef 0 }
          :: rest) ∧
    (s.isPlaying = false →
      (step s (Action.setMeter now n)).2 = [] ∧
      ∃ rest, (step (step s (Action.setMeter now n)).1
          (Action.togglePlay now2)).2
        = { index := 0, accent := true, deadline := now2,
            pulse := playTick now2 true s.volumeRef,
            speech := speakBeatNumber s.voiceEnabledRef s.volumeRef 0 }
          :: rest) := by
  have hsa : (0:ℚ) < scheduleAheadTime := by norm_num [scheduleAheadTime]
  constructor
  · intro hp
    have hcond : now < now + scheduleAheadTime := by linarith
    have hh := scheduler_head now s.bpm n s.volumeRef s.voiceEnabledRef 0 now
      hb hcond
    refine ⟨(schedulerLoopF (iterCount now s.bpm now - 1) now s.bpm n
      s.volumeRef s.voiceEnabledRef ((0 + 1) % n) (now + 60 / s.bpm)).1, ?_⟩
    simp only [step, if_neg hne, runEffect, hp, if_true]
    exact hh
  · intro hstop
    have hcond : now2 < now2 + scheduleAheadTime := by linarith
    have hh := scheduler_head now2 s.bpm n s.volumeRef s.voiceEnabledRef 0
      now2 hb hcond
    constructor
    · simp [step, if_neg hne, runEffect, hstop]
    · refine ⟨(schedulerLoopF (iterCount now2 s.bpm now2 - 1) now2 s.bpm n
        s.volumeRef s.voiceEnabledRef ((0 + 1) % n) (now2 + 60 / s.bpm)).1, ?_⟩
      simp only [step, if_neg hne, runEffect, hstop, Bool.false_eq_true,
        if_false, Bool.not_false, if_true]
      exact hh

/-- Witness for C6: changing the default (stopped) state's meter from 4 to
3 at clock 0, then pressing play at clock 1. -/
theorem meter_change_resets_witness :
    0 < initState.bpm ∧ (3 : ℕ) ≠ initState.beatsPerMeasure ∧
    ((initState.isPlaying = true →
      ∃ rest, (step initState (Action.setMeter 0 3)).2
        = { index := 0, accent := true, deadline := 0,
            pulse := playTick 0 true initState.volumeRef,
            speech := speakBeatNumber initState.voiceEnabledRef
              initState.volumeRef 0 } :: rest) ∧
    (initState.isPlaying = false →
      (step initState (Action.setMeter 0 3)).2 = [] ∧
      ∃ rest, (step (step initState (Action.setMeter 0 3)).1
          (Action.togglePlay 1)).2
        = { index := 0, accent := true, deadline := 1,
            pulse := playTick 1 true initState.volumeRef,
            speech := speakBeatNumber initState.voiceEnabledRef
              initState.volumeRef 0 } :: rest)) :=
  ⟨by norm_num [initState], by norm_num [initState],
    meter_change_resets initState 0 1 3 (by norm_num [initState])
      (by norm_num [initState])⟩

/-- Claim C7: Emission reads the *latest* volume and voice-enabled values, not
values captured at session start: the volume and voice setters emit nothing
and update the refs immediately; every beat emitted by any transition takes
its pulse gain and announcement volume from the pre-transition volume ref
and its announcement from the pre-transition voice ref (in particular a
disabled voice ref means no announcement); and once the voice is disabled,
no beat emitted by any later transition carries an announcement until a
re-enable occurs. -/
theorem params_read_at_emission :
    (∀ (s : MetronomeState) (v : ℚ),
      (step s (Action.setVolume v)).1.volumeRef = v ∧
      (step s (Action.setVolume v)).2 = []) ∧
    (∀ (s : MetronomeState) (b : Bool),
      (step s (Action.setVoiceEnabled b)).1.voiceEnabledRef = b ∧
      (step s (Action.setVoiceEnabled b)).2 = []) ∧
    (∀ (s : MetronomeState) (a : Action), ∀ ev ∈ (step s a).2,
      ev.pulse.gain = s.volumeRef ∧
      (∀ u ∈ ev.speech, u.volume = s.volumeRef) ∧
      (s.voiceEnabledRef = false → ev.speech = none)) ∧
    (∀ (s : MetronomeState) (acts : List Action),
      s.voiceEnabledRef = false →
      (∀ a ∈ acts, a ≠ Action.setVoiceEnabled true) →
      ∀ ev ∈ (runActions s acts).2, ev.speech = none) := by
  refine ⟨fun s v => ⟨rfl, rfl⟩, fun s b => ⟨rfl, rfl⟩, ?_, ?_⟩
  · intro s a ev hev
    obtain ⟨_, _, h3, h4⟩ := step_events_shape s a ev hev
    refine ⟨h3, ?_, ?_⟩
    · intro u hu
      rw [h4] at hu
      unfold speakBeatNumber at hu
      by_cases hv : s.voiceEnabledRef
      · simp only [hv, Bool.not_true, Bool.false_eq_true, if_false,
          Option.mem_def, Option.some.injEq] at hu
        subst hu
        rfl
      · simp only [Bool.not_eq_true] at hv
        simp [hv] at hu
    · intro hv
      rw [h4, hv]
      simp [speakBeatNumber]
  · intro s acts h ha
    exact runActions_voice_off acts s h ha

/-- Witness for C7: the default state (voice off) hit with a start; no beat
carries an announcement. -/
theorem params_read_at_emission_witness :
    initState.voiceEnabledRef = false ∧
    (∀ a ∈ ([Action.togglePlay 0] : List Action),
      a ≠ Action.setVoiceEnabled true) ∧
    ∀ ev ∈ (runActions initState [Action.togglePlay 0]).2,
      ev.speech = none :=
  ⟨rfl, by decide,
    params_read_at_emission.2.2.2 initState [Action.togglePlay 0] rfl
      (by decide)⟩

/-- Claim C8: Every number passed to the BPM handler is stored clamped to the
closed range `[40, 240]`, and consequently every reachable component state
— hence every tempo the scheduler ever reads — lies in `[40, 240]`. -/
theorem tempo_always_clamped :
    (∀ x : ℚ, 40 ≤ handleBpmChange x ∧ handleBpmChange x ≤ 240) ∧
    (∀ s : MetronomeState, Reachable s → 40 ≤ s.bpm ∧ s.bpm ≤ 240) := by
  refine ⟨handleBpmChange_mem, ?_⟩
  intro s h
  exact reachable_bpmInv s h

/-- Witness for C8: an out-of-range input (1000) is clamped, and the
initial state's tempo is in range. -/
theorem tempo_always_clamped_witness :
    (40 ≤ handleBpmChange 1000 ∧ handleBpmChange 1000 ≤ 240) ∧
    (40 ≤ initState.bpm ∧ initState.bpm ≤ 240) :=
  ⟨tempo_always_clamped.1 1000,
    tempo_always_clamped.2 initState Reachable.init⟩

/-- Claim C9: For every clock value and positive tempo, one invocation of the
catch-up while loop performs only finitely many iterations: `iterCount`
fuel — or any larger fuel, which yields the identical run, i.e. the
unbounded loop stops by its own guard — emits exactly `iterCount` beats;
each iteration advances the deadline by `60/tempo > 0`, so on return the
guard `deadline < now + lookahead` has become false. -/
theorem catchup_loop_finite (t bpm : ℚ) (m : ℕ) (vol : ℚ) (voice : Bool)
    (b : ℕ) (τ : ℚ) (hb : 0 < bpm) :
    (∀ fuel, iterCount t bpm τ ≤ fuel →
      schedulerLoopF fuel t bpm m vol voice b τ
        = scheduler t bpm m vol voice b τ) ∧
    (scheduler t bpm m vol voice b τ).1.length = iterCount t bpm τ ∧
    0 < 60 / bpm ∧
    (scheduler t bpm m vol voice b τ).2.2
      = τ + iterCount t bpm τ * (60 / bpm) ∧
    ¬ (scheduler t bpm m vol voice b τ).2.2 < t + scheduleAheadTime := by
  refine ⟨?_, ?_, by positivity, ?_,
    scheduler_exits t bpm m vol voice b τ hb⟩
  · intro fuel hf
    exact schedulerLoopF_congr hb fuel (iterCount t bpm τ) t m vol voice b τ
      hf le_rfl
  · exact schedulerLoopF_length hb _ t m vol voice b τ le_rfl
  · unfold scheduler
    rw [schedulerLoopF_finalTime,
      schedulerLoopF_length hb _ t m vol voice b τ le_rfl]

/-- Witness for C9: the loop at clock 0, tempo 120, from deadline 0. -/
theorem catchup_loop_finite_witness :
    (0:ℚ) < 120 ∧
    ((∀ fuel, iterCount 0 120 0 ≤ fuel →
      schedulerLoopF fuel 0 120 4 (1/2) false 0 0
        = scheduler 0 120 4 (1/2) false 0 0) ∧
    (scheduler 0 120 4 (1/2) false 0 0).1.length = iterCount 0 120 0 ∧
    (0:ℚ) < 60 / 120 ∧
    (scheduler 0 120 4 (1/2) false 0 0).2.2
      = 0 + iterCount 0 120 0 * (60 / 120) ∧
    ¬ (scheduler 0 120 4 (1/2) false 0 0).2.2 < 0 + scheduleAheadTime) :=
  ⟨by norm_num, catchup_loop_finite 0 120 4 (1/2) false 0 0 (by norm_num)⟩

/-- Claim C10: In every reachable component state, the published current beat
index lies in `[0, beatsPerMeasure)`. -/
theorem published_beat_in_range (s : MetronomeState) (h : Reachable s) :
    s.currentBeat < s.beatsPerMeasure :=
  (reachable_beatInv s h).2.1

/-- Witness for C10: the initial state. -/
theorem published_beat_in_range_witness :
    initState.currentBeat < initState.beatsPerMeasure :=
  published_beat_in_range initState Reachable.init

end Metronome
